import Mathlib

/-! # dms3fsaddr: parsing of multiaddrs that end in a peer identity

A shallow embedding of `src/dsm3fsaddr.go`.

Go features and how they are rendered here:

* a Go call that may panic returns `Go α`: either `ret a` or `panic r`;
* a value of interface type (`ma.Multiaddr`, `DMS3FSAddr`, `error`) may be `nil`:
  it is an `Option`, `none` standing for `nil`;
* a Go function with results `(x, err)` returns the pair of both results;
* a Go `string` is a Lean `String`; `strings.Split(s, "/")` is `stringsSplit s '/'`;
* the multiaddr and peer-identity libraries (`ma`, `peer`, `circuit`) are not part of
  this repository: they are the fields of a record `Lib` that every definition takes
  as a parameter.
-/

namespace Dms3fsaddr

/-! ## Go runtime -/

/-- The value carried by a Go panic, as `recover()` hands it to a deferred function.
Run-time faults carry a non-nil `runtime.Error`; library panics carry the value given
to `panic`. Every constructor is a non-nil value. -/
inductive PanicValue where
  | indexOutOfRange (index len : Nat)
  | nilDereference
  | sliceBoundsOutOfRange (high : Int) (len : Nat)
  | raised (msg : String)
  deriving DecidableEq, Repr

/-- Outcome of a Go call: it returns a value or it panics. -/
inductive Go (α : Type) where
  | ret (a : α)
  | panic (r : PanicValue)
  deriving DecidableEq, Repr

/-- Sequencing of Go calls: a panic aborts what follows. -/
def Go.bind {α β : Type} : Go α → (α → Go β) → Go β
  | .ret a, f => f a
  | .panic r, _ => .panic r

instance : Monad Go where
  pure := Go.ret
  bind := Go.bind

/-- Slice indexing `xs[i]`: a run-time panic when `i` is out of range. -/
def index {α : Type} (xs : List α) (i : Nat) : Go α :=
  match xs.get? i with
  | some x => .ret x
  | none => .panic (.indexOutOfRange i xs.length)

/-- Slice expression `xs[:high]`: a run-time panic when `high` is negative or beyond the
slice. The code takes `high = len(xs) - 1`, which never exceeds the length, so the
capacity of the slice plays no part. -/
def sliceTo {α : Type} (xs : List α) (high : Int) : Go (List α) :=
  if 0 ≤ high ∧ high ≤ xs.length then .ret (xs.take high.toNat)
  else .panic (.sliceBoundsOutOfRange high xs.length)

/-- Worker of `stringsSplit`: `cur` is the piece being read, in reverse. -/
def stringsSplitAux (sep : Char) : List Char → List Char → List String
  | cur, [] => [String.mk cur.reverse]
  | cur, c :: cs =>
    if c = sep then String.mk cur.reverse :: stringsSplitAux sep [] cs
    else stringsSplitAux sep (c :: cur) cs

/-- Go's `strings.Split(s, sep)` for a separator of one character: the pieces of `s`
between the occurrences of `sep`, in order; `[s]` when `sep` does not occur. -/
def stringsSplit (s : String) (sep : Char) : List String :=
  stringsSplitAux sep [] s.data

/-! ## External libraries -/

/-- The part of `ma.Protocol` that the code reads. -/
structure Protocol where
  Code : Int
  Name : String
  deriving DecidableEq, Repr

/-- The multiaddr (`ma`), circuit and peer-identity (`peer`) libraries.
`M` is the type of non-nil `ma.Multiaddr` values, `PeerID` is `peer.ID`, `E` the type of
the non-nil `error` values the libraries return. -/
structure Lib (M PeerID E : Type) where
  /-- Stands for `ma.P_DMS3FS`. -/
  P_DMS3FS : Int
  /-- Stands for `circuit.P_CIRCUIT`. -/
  P_CIRCUIT : Int
  /-- Stands for `ma.NewMultiaddr(s)`, results `(Multiaddr, error)`. -/
  NewMultiaddr : String → Option M × Option E
  /-- Stands for `ma.Split(m)`, result `[]Multiaddr`. -/
  Split : M → Go (List (Option M))
  /-- Stands for `ma.Join(ms...)`. -/
  Join : List (Option M) → Go (Option M)
  /-- Stands for the method `m.Protocols()`. -/
  Protocols : M → Go (List Protocol)
  /-- Stands for the method `m.Equal(n)`. -/
  Equal : M → Option M → Go Bool
  /-- Stands for the method `m.ValueForProtocol(code)`, results `(string, error)`. -/
  ValueForProtocol : M → Int → Go (String × Option E)
  /-- Stands for `peer.IDB58Decode(s)`, results `(peer.ID, error)`. -/
  IDB58Decode : String → Go (PeerID × Option E)
  /-- Stands for the method `m.String()`; declared last, as the field's name hides the
  type `String` in what follows it. -/
  String : M → Go String

/-! ## The package -/

/-- A Go `error` value seen by this package: its own `ErrInvalidAddr`, or an error
value made by one of the libraries. -/
inductive GoError (E : Type) where
  | ErrInvalidAddr
  | ext (e : E)
  deriving DecidableEq, Repr

/-- The struct `dms3fsAddr`. -/
structure dms3fsAddr (M PeerID : Type) where
  ma : Option M
  id : PeerID
  deriving DecidableEq, Repr

/-- Method `ID`. -/
def dms3fsAddr.ID {M PeerID : Type} (a : dms3fsAddr M PeerID) : PeerID := a.id

/-- Method `Multiaddr`. -/
def dms3fsAddr.Multiaddr {M PeerID : Type} (a : dms3fsAddr M PeerID) : Option M := a.ma

/-- The two results `(a DMS3FSAddr, err error)` of the parsing functions. -/
abbrev ParseResult (M PeerID E : Type) := Option (dms3fsAddr M PeerID) × Option (GoError E)

/-- Method call on an interface value: a nil receiver is a run-time panic. -/
def method {M α : Type} (m : Option M) (f : M → Go α) : Go α :=
  match m with
  | some mv => f mv
  | none => .panic .nilDereference

/-- The statements of `ParseMultiaddr`, lines 82 to 104, without the deferred function. -/
def ParseMultiaddr.body {M PeerID E : Type} (L : Lib M PeerID E) (m : Option M) :
    Go (ParseResult M PeerID E) :=
  match m with
  | none => .ret (none, some .ErrInvalidAddr)
  | some mv => do
    let parts ← L.Split mv
    if parts.length < 1 then
      return (none, some .ErrInvalidAddr)
    let dms3fspart ← index parts (parts.length - 1)
    let protocols ← method dms3fspart L.Protocols
    let p0 ← index protocols 0
    if p0.Code ≠ L.P_DMS3FS then
      return (none, some .ErrInvalidAddr)
    let str ← method dms3fspart L.String
    let peerIdParts := stringsSplit str '/'
    let peerIdStr ← index peerIdParts (peerIdParts.length - 1)
    let (id, err) ← L.IDB58Decode peerIdStr
    match err with
    | some e => return (none, some (.ext e))
    | none => return (some { ma := m, id := id }, none)

/-- The deferred function of `ParseMultiaddr`, lines 74 to 80: `recovered` is what
`recover()` returns, `res` the current values of the named results. -/
def ParseMultiaddr.deferred {M PeerID E : Type} (recovered : Option PanicValue)
    (res : ParseResult M PeerID E) : ParseResult M PeerID E :=
  match recovered with
  | some _ => (none, some .ErrInvalidAddr)
  | none => res

/-- `ParseMultiaddr`: the body runs, then the deferred function. On a panic the named
results still hold `(nil, nil)`, as no statement of the body assigns them before it
returns. -/
def ParseMultiaddr {M PeerID E : Type} (L : Lib M PeerID E) (m : Option M) :
    Go (ParseResult M PeerID E) :=
  match ParseMultiaddr.body L m with
  | .ret res => .ret (ParseMultiaddr.deferred none res)
  | .panic r => .ret (ParseMultiaddr.deferred (some r) (none, none))

/-- `ParseString`. -/
def ParseString {M PeerID E : Type} (L : Lib M PeerID E) (str : String) :
    Go (ParseResult M PeerID E) :=
  if str = "" then
    .ret (none, some .ErrInvalidAddr)
  else
    match L.NewMultiaddr str with
    | (_, some e) => .ret (none, some (.ext e))
    | (m, none) => ParseMultiaddr L m

/-- A Go value of type `interface{}`, as the type assertions of `Equal` tell values
apart: nil, a `DMS3FSAddr`, a `ma.Multiaddr` that is not a `DMS3FSAddr`, or a value of
any other type. -/
inductive Value (M PeerID : Type) where
  | nil
  | addr (ib : dms3fsAddr M PeerID)
  | multiaddr (mb : M)
  | other (typeName : String)
  deriving DecidableEq, Repr

/-- Type assertion `b.(DMS3FSAddr)`: the value when the assertion holds. -/
def Value.asDMS3FSAddr {M PeerID : Type} : Value M PeerID → Option (dms3fsAddr M PeerID)
  | .addr ib => some ib
  | _ => none

/-- Type assertion `b.(ma.Multiaddr)`: the value when the assertion holds. -/
def Value.asMultiaddr {M PeerID : Type} : Value M PeerID → Option M
  | .multiaddr mb => some mb
  | _ => none

/-- Method `Equal`, lines 47 to 55. -/
def dms3fsAddr.Equal {M PeerID E : Type} (L : Lib M PeerID E) (a : dms3fsAddr M PeerID)
    (b : Value M PeerID) : Go Bool :=
  match b.asDMS3FSAddr with
  | some ib => method a.Multiaddr (fun mv => L.Equal mv ib.Multiaddr)
  | none =>
    match b.asMultiaddr with
    | some mb => method a.Multiaddr (fun mv => L.Equal mv (some mb))
    | none => .ret false

/-- `Transport`, lines 107 to 124. The argument is a `DMS3FSAddr` interface value,
`none` standing for nil. -/
def Transport {M PeerID E : Type} (L : Lib M PeerID E)
    (iaddr : Option (dms3fsAddr M PeerID)) : Go (Option M) := do
  let maddr ← method iaddr (fun a => .ret a.Multiaddr)
  match maddr with
  | none => .panic .nilDereference
  | some mv =>
    let (_, err) ← L.ValueForProtocol mv L.P_CIRCUIT
    match err with
    | none => return maddr
    | some _ =>
      let split ← L.Split mv
      if split.length = 1 then
        return none
      let front ← sliceTo split ((split.length : Int) - 1)
      L.Join front

/-- Method `Transport`, lines 39 to 41. -/
def dms3fsAddr.Transport {M PeerID E : Type} (L : Lib M PeerID E)
    (a : dms3fsAddr M PeerID) : Go (Option M) :=
  Dms3fsaddr.Transport L (some a)

/-- Method `String`, lines 43 to 45. -/
def dms3fsAddr.String {M PeerID E : Type} (L : Lib M PeerID E) (a : dms3fsAddr M PeerID) :
    Go String :=
  method a.ma L.String

/-! ## Definitions used in the statements -/

/-- The value of `peerIdStr` at lines 97 and 98 for a last segment whose string form
is `s`: the last element of `strings.Split(s, "/")`. -/
def peerIdStrOf (s : String) : String :=
  (stringsSplit s '/').getLastD ""

/-- The substring of `s` that follows its final `/`, as the specification words it:
the longest suffix of `s` without a `/`. When `s` has no `/` this is `s` itself. -/
def afterFinalSlash (s : String) : String :=
  String.mk (s.data.reverse.takeWhile (fun c => c ≠ '/')).reverse

/-- Invariant 1 of the specification, for the library `L`: the address splits into at
least one segment and the last segment's protocol code is `P_DMS3FS`. -/
def Invariant1 {M PeerID E : Type} (L : Lib M PeerID E) (a : dms3fsAddr M PeerID) : Prop :=
  ∃ mv parts last p ps,
    a.Multiaddr = some mv ∧ L.Split mv = .ret parts ∧ 1 ≤ parts.length ∧
    parts.getLast? = some (some last) ∧ L.Protocols last = .ret (p :: ps) ∧
    p.Code = L.P_DMS3FS

/-- The text entry point as the specification words it: decode the text, hand the
decoder's failure back as it is, otherwise delegate to the address entry point. -/
def ParseString_spec {M PeerID E : Type} (L : Lib M PeerID E) (str : String) :
    Go (ParseResult M PeerID E) :=
  match L.NewMultiaddr str with
  | (_, some e) => .ret (none, some (.ext e))
  | (m, none) => ParseMultiaddr L m

/-- A parsing result is atomic: an address and no error, or an error and no address. -/
def Atomic {M PeerID E : Type} (res : ParseResult M PeerID E) : Prop :=
  (∃ a, res = (some a, none)) ∨ (∃ e, res = (none, some e))

/-- The receiver `x` is not nil and `x.Equal(y)` returns true. -/
def AddrEqual {M PeerID E : Type} (L : Lib M PeerID E) (x y : Option M) : Prop :=
  ∃ xv, x = some xv ∧ L.Equal xv y = .ret true

/-! ## A concrete library, for evaluating the definitions

A small implementation of `Lib` in which a multiaddr is the list of its segments, each
segment carrying its protocols and its string form. It also represents degenerate
segments: one without protocols, one whose string form has no separator. -/

/-- A segment of an example multiaddr. -/
structure ExSeg where
  protocols : List Protocol
  text : String
  deriving DecidableEq, Repr

/-- An example multiaddr: its segments, in order. -/
abbrev ExAddr := List ExSeg

/-- The protocol table of the example library. -/
def exProtocol (name : String) : Option Protocol :=
  if name = "ip4" then some ⟨4, "ip4"⟩
  else if name = "tcp" then some ⟨6, "tcp"⟩
  else if name = "p2p-circuit" then some ⟨290, "p2p-circuit"⟩
  else if name = "dms3fs" then some ⟨421, "dms3fs"⟩
  else none

/-- Reads the pieces `name, value, name, value, ...` of an address text. -/
def exSegments : List String → Option ExAddr
  | [] => some []
  | [_] => none
  | name :: value :: rest =>
    match exProtocol name, exSegments rest with
    | some p, some segs =>
      if value = "" then none else some (⟨[p], "/" ++ name ++ "/" ++ value⟩ :: segs)
    | _, _ => none

/-- Text decoder of the example library. -/
def exNewMultiaddr (s : String) : Option ExAddr × Option String :=
  match stringsSplit s '/' with
  | "" :: rest =>
    match exSegments rest with
    | some segs => (some segs, none)
    | none => (none, some "invalid multiaddr")
  | _ => (none, some "invalid multiaddr, must begin with /")

/-- Identity decoder of the example library: it accepts the non-empty texts made of
letters and digits, and the identity is the text. -/
def exIDB58Decode (s : String) : Go (String × Option String) :=
  if s ≠ "" ∧ s.data.all Char.isAlphanum then .ret (s, none)
  else .ret ("", some "invalid peer id")

/-- Value lookup of the example library. -/
def exValueForProtocol (m : ExAddr) (code : Int) : Go (String × Option String) :=
  match m.find? (fun seg => seg.protocols.any (fun p => p.Code == code)) with
  | some seg => .ret ((stringsSplit seg.text '/').getLastD "", none)
  | none => .ret ("", some "protocol not found in multiaddr")

/-- The example library. -/
def exLib : Lib ExAddr String String where
  P_DMS3FS := 421
  P_CIRCUIT := 290
  NewMultiaddr := exNewMultiaddr
  Split := fun m => .ret (m.map (fun seg => some [seg]))
  Join := fun ms => .ret (some (ms.filterMap id).flatten)
  Protocols := fun m => .ret (m.flatMap ExSeg.protocols)
  Equal := fun m n => .ret (decide (some m = n))
  ValueForProtocol := exValueForProtocol
  IDB58Decode := exIDB58Decode
  String := fun m => .ret (String.join (m.map ExSeg.text))


/-- The example address `/dms3fs/QmUCse`. -/
def exIdOnly : ExAddr := [⟨[⟨421, "dms3fs"⟩], "/dms3fs/QmUCse"⟩]

/-- The example address `/ip4/1.2.3.4/tcp/1234/dms3fs/QmUCse`. -/
def exWithTransport : ExAddr :=
  [⟨[⟨4, "ip4"⟩], "/ip4/1.2.3.4"⟩, ⟨[⟨6, "tcp"⟩], "/tcp/1234"⟩,
    ⟨[⟨421, "dms3fs"⟩], "/dms3fs/QmUCse"⟩]

/-- The example address `/dms3fs/QmUCse/tcp/1234`: the identity segment is not last. -/
def exIdNotLast : ExAddr :=
  [⟨[⟨421, "dms3fs"⟩], "/dms3fs/QmUCse"⟩, ⟨[⟨6, "tcp"⟩], "/tcp/1234"⟩]

/-- The example address `/dms3fs/Qm-Cse`: the identity text does not decode. -/
def exBadId : ExAddr := [⟨[⟨421, "dms3fs"⟩], "/dms3fs/Qm-Cse"⟩]

/-- A degenerate address: its only segment has no protocol. -/
def exNoProtocol : ExAddr := [⟨[], "/dms3fs/QmUCse"⟩]

/-- A degenerate address: the string form of its only segment has no `/`. -/
def exNoSeparator : ExAddr := [⟨[⟨421, "dms3fs"⟩], "QmUCse"⟩]

/-- The example relay address `/dms3fs/QmRelay/p2p-circuit/dms3fs/QmUCse`. -/
def exCircuit : ExAddr :=
  [⟨[⟨421, "dms3fs"⟩], "/dms3fs/QmRelay"⟩, ⟨[⟨290, "p2p-circuit"⟩], "/p2p-circuit"⟩,
    ⟨[⟨421, "dms3fs"⟩], "/dms3fs/QmUCse"⟩]

/-- The example address `/dms3fs/QmFirst/dms3fs/QmUCse`: an identity segment comes
before the last segment, which is an identity segment too. -/
def exTwoIds : ExAddr :=
  [⟨[⟨421, "dms3fs"⟩], "/dms3fs/QmFirst"⟩, ⟨[⟨421, "dms3fs"⟩], "/dms3fs/QmUCse"⟩]

/-- The example address `/ip4/1.2.3.4/tcp/1234`. -/
def exTransportOnly : ExAddr :=
  [⟨[⟨4, "ip4"⟩], "/ip4/1.2.3.4"⟩, ⟨[⟨6, "tcp"⟩], "/tcp/1234"⟩]

/-! ## Lemmas on the Go runtime -/

theorem Go.bind_ret {α β : Type} (a : α) (f : α → Go β) : (Go.ret a >>= f) = f a := rfl

theorem Go.bind_panic {α β : Type} (r : PanicValue) (f : α → Go β) :
    (Go.panic r >>= f) = Go.panic r := rfl

theorem Go.pure_eq {α : Type} (a : α) : (pure a : Go α) = Go.ret a := rfl

theorem stringsSplitAux_ne_nil (sep : Char) (cur cs : List Char) :
    stringsSplitAux sep cur cs ≠ [] := by
  induction cs generalizing cur with
  | nil => simp [stringsSplitAux]
  | cons c cs ih =>
    unfold stringsSplitAux
    split
    · simp
    · exact ih _

theorem stringsSplit_ne_nil (s : String) (sep : Char) : stringsSplit s sep ≠ [] :=
  stringsSplitAux_ne_nil sep [] s.data

theorem index_last {α : Type} (xs : List α) (h : xs ≠ []) :
    index xs (xs.length - 1) = .ret (xs.getLast h) := by
  unfold index
  have : xs.get? (xs.length - 1) = some (xs.getLast h) := by
    rw [List.get?_eq_getElem?, ← List.getLast?_eq_getElem?, List.getLast?_eq_getLast _ h]
  rw [this]

/-- Indexing the last element of `strings.Split(s, "/")` never faults. -/
theorem index_stringsSplit (s : String) :
    index (stringsSplit s '/') ((stringsSplit s '/').length - 1) = .ret (peerIdStrOf s) := by
  rw [index_last _ (stringsSplit_ne_nil s '/'), peerIdStrOf, List.getLastD_eq_getLast?,
    List.getLast?_eq_getLast _ (stringsSplit_ne_nil s '/')]
  rfl

theorem takeWhile_append_stop {α : Type} (p : α → Bool) (l r : List α) (x : α)
    (hx : p x = false) : (l ++ x :: r).takeWhile p = l.takeWhile p := by
  induction l with
  | nil => simp [List.takeWhile, hx]
  | cons a l ih =>
    simp only [List.cons_append, List.takeWhile]
    cases p a <;> simp [ih]

theorem takeWhile_all {α : Type} (p : α → Bool) (l : List α) (h : ∀ x ∈ l, p x = true) :
    l.takeWhile p = l := by
  induction l with
  | nil => rfl
  | cons a l ih =>
    have ha : p a = true := h a (List.mem_cons_self _ _)
    simp only [List.takeWhile, ha]
    rw [ih (fun x hx => h x (List.mem_cons_of_mem _ hx))]

/-- The last piece that `stringsSplitAux` yields is what follows the final separator. -/
theorem stringsSplitAux_getLastD (sep : Char) (cs cur : List Char) (hcur : sep ∉ cur) :
    (stringsSplitAux sep cur cs).getLastD "" =
      String.mk ((cs.reverse ++ cur).takeWhile (fun c => c ≠ sep)).reverse := by
  induction cs generalizing cur with
  | nil =>
    have hall : ∀ x ∈ cur, (fun c => decide (c ≠ sep)) x = true := by
      intro x hx
      have : x ≠ sep := fun h => hcur (h ▸ hx)
      simpa using this
    simp only [stringsSplitAux, List.getLastD_cons, List.getLastD_nil, List.reverse_nil,
      List.nil_append]
    rw [takeWhile_all _ _ hall]
  | cons c cs ih =>
    unfold stringsSplitAux
    by_cases hc : c = sep
    · simp only [hc, if_true]
      have hne := stringsSplitAux_ne_nil sep [] cs
      have h1 : (String.mk cur.reverse :: stringsSplitAux sep [] cs).getLastD "" =
          (stringsSplitAux sep [] cs).getLastD "" := by
        cases hs : stringsSplitAux sep [] cs with
        | nil => exact absurd hs hne
        | cons a t => simp [List.getLastD]
      rw [h1, ih [] (by simp)]
      have h2 : (sep :: cs).reverse ++ cur = cs.reverse ++ sep :: cur := by simp
      rw [h2, takeWhile_append_stop _ _ _ _ (by simp)]
      simp
    · simp only [hc, if_false]
      have hcur2 : sep ∉ c :: cur := by
        intro h
        rcases List.mem_cons.mp h with h | h
        · exact hc h.symm
        · exact hcur h
      rw [ih (c :: cur) hcur2]
      simp

/-- The code's `peerIdStr` is the substring that follows the final `/`. -/
theorem peerIdStrOf_eq_afterFinalSlash (s : String) : peerIdStrOf s = afterFinalSlash s := by
  unfold peerIdStrOf afterFinalSlash stringsSplit
  rw [stringsSplitAux_getLastD '/' s.data [] (by simp)]
  simp

/-- Without a `/` the code's `peerIdStr` is the whole string form. -/
theorem peerIdStrOf_of_no_slash (s : String) (h : '/' ∉ s.data) : peerIdStrOf s = s := by
  rw [peerIdStrOf_eq_afterFinalSlash, afterFinalSlash]
  have hall : ∀ x ∈ s.data.reverse, (fun c => decide (c ≠ '/')) x = true := by
    intro x hx
    have hx2 : x ∈ s.data := List.mem_reverse.mp hx
    have : x ≠ '/' := fun e => h (e ▸ hx2)
    simpa using this
  rw [takeWhile_all _ _ hall, List.reverse_reverse]

/-! ## Lemmas on `ParseMultiaddr` -/

/-- The rest of the body once `ma.Split` has returned a non-empty slice. -/
theorem body_step {M PeerID E : Type} (L : Lib M PeerID E) (mv : M)
    (parts : List (Option M)) (hne : parts ≠ []) (hS : L.Split mv = .ret parts) :
    ParseMultiaddr.body L (some mv) =
      (method (parts.getLast hne) L.Protocols >>= fun protocols =>
        index protocols 0 >>= fun p0 =>
          if p0.Code ≠ L.P_DMS3FS then Go.ret (none, some .ErrInvalidAddr)
          else method (parts.getLast hne) L.String >>= fun str =>
            L.IDB58Decode (peerIdStrOf str) >>= fun r =>
              match r.2 with
              | some e => Go.ret (none, some (.ext e))
              | none => Go.ret (some { ma := some mv, id := r.1 }, none)) := by
  have hlen : ¬ parts.length < 1 := by
    cases parts with
    | nil => exact absurd rfl hne
    | cons a t => simp
  simp only [ParseMultiaddr.body, hS, Go.bind_ret, hlen, if_false, index_last parts hne,
    index_stringsSplit]
  rfl

/-- The rest of the body once the last segment and its first protocol are known to
carry the code `P_DMS3FS`. -/
theorem body_decode {M PeerID E : Type} (L : Lib M PeerID E) (mv : M)
    (parts : List (Option M)) (last : M) (p : Protocol) (ps : List Protocol) (str : String)
    (hS : L.Split mv = .ret parts) (hlast : parts.getLast? = some (some last))
    (hP : L.Protocols last = .ret (p :: ps)) (hc : p.Code = L.P_DMS3FS)
    (hStr : L.String last = .ret str) :
    ParseMultiaddr.body L (some mv) =
      (L.IDB58Decode (peerIdStrOf str) >>= fun r =>
        match r.2 with
        | some e => Go.ret (none, some (.ext e))
        | none => Go.ret (some { ma := some mv, id := r.1 }, none)) := by
  have hne : parts ≠ [] := by
    intro h
    simp [h] at hlast
  have hl : parts.getLast hne = some last := by
    rw [List.getLast?_eq_getLast _ hne] at hlast
    exact Option.some.inj hlast
  rw [body_step L mv parts hne hS, hl]
  simp only [method, hP, Go.bind_ret, index, List.get?, hc, ne_eq, not_true_eq_false,
    if_false, hStr]

theorem ParseMultiaddr_of_body_ret {M PeerID E : Type} {L : Lib M PeerID E} {m : Option M}
    {res : ParseResult M PeerID E} (h : ParseMultiaddr.body L m = .ret res) :
    ParseMultiaddr L m = .ret res := by
  simp [ParseMultiaddr, h, ParseMultiaddr.deferred]

theorem ParseMultiaddr_of_body_panic {M PeerID E : Type} {L : Lib M PeerID E} {m : Option M}
    {r : PanicValue} (h : ParseMultiaddr.body L m = .panic r) :
    ParseMultiaddr L m = .ret (none, some .ErrInvalidAddr) := by
  simp [ParseMultiaddr, h, ParseMultiaddr.deferred]

/-- What a returning body has gone through when it yields an address. -/
theorem body_success {M PeerID E : Type} {L : Lib M PeerID E} {m : Option M}
    {a : dms3fsAddr M PeerID} {err : Option (GoError E)}
    (h : ParseMultiaddr.body L m = .ret (some a, err)) :
    ∃ mv parts last p ps str,
      m = some mv ∧ L.Split mv = .ret parts ∧ parts.getLast? = some (some last) ∧
      L.Protocols last = .ret (p :: ps) ∧ p.Code = L.P_DMS3FS ∧
      L.String last = .ret str ∧ L.IDB58Decode (peerIdStrOf str) = .ret (a.id, none) ∧
      a.ma = m ∧ err = none := by
  cases m with
  | none => simp [ParseMultiaddr.body] at h
  | some mv =>
    cases hS : L.Split mv with
    | panic r => simp [ParseMultiaddr.body, hS, Go.bind_panic] at h
    | ret parts =>
      by_cases hne : parts = []
      · subst hne
        simp [ParseMultiaddr.body, hS, Go.bind_ret, Go.pure_eq] at h
      · rw [body_step L mv parts hne hS] at h
        cases hlast : parts.getLast hne with
        | none => simp [hlast, method, Go.bind_panic] at h
        | some last =>
          rw [hlast] at h
          simp only [method] at h
          cases hP : L.Protocols last with
          | panic r => simp [hP, Go.bind_panic] at h
          | ret protocols =>
            cases protocols with
            | nil => simp [hP, Go.bind_ret, index, Go.bind_panic] at h
            | cons p ps =>
              simp only [hP, Go.bind_ret, index, List.get?] at h
              by_cases hc : p.Code = L.P_DMS3FS
              · simp only [hc, ne_eq, not_true_eq_false, if_false] at h
                cases hStr : L.String last with
                | panic r => simp [hStr, Go.bind_panic] at h
                | ret str =>
                  simp only [hStr, Go.bind_ret] at h
                  cases hD : L.IDB58Decode (peerIdStrOf str) with
                  | panic r => simp [hD, Go.bind_panic] at h
                  | ret r =>
                    obtain ⟨id, e⟩ := r
                    simp only [hD, Go.bind_ret] at h
                    cases e with
                    | some e => simp at h
                    | none =>
                      simp only [Go.ret.injEq, Prod.mk.injEq, Option.some.injEq] at h
                      obtain ⟨ha, he⟩ := h
                      subst ha
                      refine ⟨mv, parts, last, p, ps, str, rfl, hS, ?_, hP, hc, hStr, hD, rfl,
                        he.symm⟩
                      rw [List.getLast?_eq_getLast _ hne, hlast]
              · simp [hc] at h

/-- A body that returns yields an address and no error, or an error and no address. -/
theorem body_atomic {M PeerID E : Type} (L : Lib M PeerID E) (m : Option M)
    (res : ParseResult M PeerID E) (h : ParseMultiaddr.body L m = .ret res) :
    Atomic res := by
  unfold Atomic
  cases m with
  | none =>
    simp only [ParseMultiaddr.body, Go.ret.injEq] at h
    exact Or.inr ⟨_, h.symm⟩
  | some mv =>
    cases hS : L.Split mv with
    | panic r => simp [ParseMultiaddr.body, hS, Go.bind_panic] at h
    | ret parts =>
      by_cases hne : parts = []
      · subst hne
        simp only [ParseMultiaddr.body, hS, Go.bind_ret, Go.pure_eq, List.length_nil,
          Nat.lt_one_iff, if_true, Go.ret.injEq] at h
        exact Or.inr ⟨_, h.symm⟩
      · rw [body_step L mv parts hne hS] at h
        cases hlast : parts.getLast hne with
        | none => simp [hlast, method, Go.bind_panic] at h
        | some last =>
          rw [hlast] at h
          simp only [method] at h
          cases hP : L.Protocols last with
          | panic r => simp [hP, Go.bind_panic] at h
          | ret protocols =>
            cases protocols with
            | nil => simp [hP, Go.bind_ret, index, Go.bind_panic] at h
            | cons p ps =>
              simp only [hP, Go.bind_ret, index, List.get?] at h
              by_cases hc : p.Code = L.P_DMS3FS
              · simp only [hc, ne_eq, not_true_eq_false, if_false] at h
                cases hStr : L.String last with
                | panic r => simp [hStr, Go.bind_panic] at h
                | ret str =>
                  simp only [hStr, Go.bind_ret] at h
                  cases hD : L.IDB58Decode (peerIdStrOf str) with
                  | panic r => simp [hD, Go.bind_panic] at h
                  | ret r =>
                    obtain ⟨id, e⟩ := r
                    simp only [hD, Go.bind_ret] at h
                    cases e with
                    | some e =>
                      simp only [Go.ret.injEq] at h
                      exact Or.inr ⟨_, h.symm⟩
                    | none =>
                      simp only [Go.ret.injEq] at h
                      exact Or.inl ⟨_, h.symm⟩
              · simp only [ne_eq, hc, not_false_eq_true, if_true, Go.ret.injEq] at h
                exact Or.inr ⟨_, h.symm⟩

/-- `ParseMultiaddr` always returns, and what it returns is atomic. -/
theorem ParseMultiaddr_returns {M PeerID E : Type} (L : Lib M PeerID E) (m : Option M) :
    ∃ res, ParseMultiaddr L m = .ret res ∧ Atomic res := by
  cases hb : ParseMultiaddr.body L m with
  | ret res => exact ⟨res, ParseMultiaddr_of_body_ret hb, body_atomic L m res hb⟩
  | panic r => exact ⟨_, ParseMultiaddr_of_body_panic hb, Or.inr ⟨_, rfl⟩⟩

/-- When `ParseMultiaddr` returns an address, the body returned the same results. -/
theorem body_of_ParseMultiaddr_some {M PeerID E : Type} {L : Lib M PeerID E}
    {m : Option M} {a : dms3fsAddr M PeerID} {err : Option (GoError E)}
    (h : ParseMultiaddr L m = .ret (some a, err)) :
    ParseMultiaddr.body L m = .ret (some a, err) := by
  cases hb : ParseMultiaddr.body L m with
  | ret res =>
    rw [ParseMultiaddr_of_body_ret hb, Go.ret.injEq] at h
    rw [h]
  | panic r =>
    rw [ParseMultiaddr_of_body_panic hb] at h
    simp at h

/-- When `ParseMultiaddr` returns no error, it returns an address. -/
theorem ParseMultiaddr_no_error {M PeerID E : Type} {L : Lib M PeerID E}
    {m : Option M} {oa : Option (dms3fsAddr M PeerID)}
    (h : ParseMultiaddr L m = .ret (oa, none)) : ∃ a, oa = some a := by
  obtain ⟨res, hres, hat⟩ := ParseMultiaddr_returns L m
  rw [hres, Go.ret.injEq] at h
  subst h
  rcases hat with ⟨a, ha⟩ | ⟨e, he⟩
  · exact ⟨a, (Prod.mk.inj ha).1⟩
  · exact absurd (Prod.mk.inj he).2 (by simp)

/-- A `ParseString` that returns no error has decoded its text and delegated. -/
theorem ParseString_no_error {M PeerID E : Type} {L : Lib M PeerID E} {s : String}
    {oa : Option (dms3fsAddr M PeerID)} (h : ParseString L s = .ret (oa, none)) :
    ∃ m, L.NewMultiaddr s = (m, none) ∧ ParseMultiaddr L m = .ret (oa, none) := by
  unfold ParseString at h
  by_cases hs : s = ""
  · simp [hs] at h
  · simp only [hs, if_false] at h
    rcases hN : L.NewMultiaddr s with ⟨m, e⟩
    rw [hN] at h
    cases e with
    | some e => simp at h
    | none => exact ⟨m, rfl, h⟩

/-- A `ParseString` that returns an address has decoded its text and delegated. -/
theorem ParseString_some {M PeerID E : Type} {L : Lib M PeerID E} {s : String}
    {a : dms3fsAddr M PeerID} {err : Option (GoError E)}
    (h : ParseString L s = .ret (some a, err)) :
    ∃ m, L.NewMultiaddr s = (m, none) ∧ ParseMultiaddr L m = .ret (some a, err) := by
  unfold ParseString at h
  by_cases hs : s = ""
  · simp [hs] at h
  · simp only [hs, if_false] at h
    rcases hN : L.NewMultiaddr s with ⟨m, e⟩
    rw [hN] at h
    cases e with
    | some e => simp at h
    | none => exact ⟨m, rfl, h⟩

/-! ## The claims -/

/-- C1: when `ParseMultiaddr(m)` returns no error, it returns an address whose
`Multiaddr()` is exactly `m`, so that it is address-equal to `m` as soon as `m` is
address-equal to itself; when `ParseString(s)` returns no error, the same holds with `m`
the multiaddr that `ma.NewMultiaddr(s)` decoded. -/
theorem C1_multiaddr_is_input {M PeerID E : Type} (L : Lib M PeerID E) (m : Option M)
    (s : String) (oa : Option (dms3fsAddr M PeerID)) :
    (ParseMultiaddr L m = .ret (oa, none) →
      ∃ a, oa = some a ∧ a.Multiaddr = m ∧
        (AddrEqual L m m → AddrEqual L a.Multiaddr m)) ∧
    (ParseString L s = .ret (oa, none) →
      ∃ a md, L.NewMultiaddr s = (md, none) ∧ oa = some a ∧ a.Multiaddr = md ∧
        (AddrEqual L md md → AddrEqual L a.Multiaddr md)) := by
  have key : ∀ m', ParseMultiaddr L m' = .ret (oa, none) →
      ∃ a, oa = some a ∧ a.Multiaddr = m' ∧
        (AddrEqual L m' m' → AddrEqual L a.Multiaddr m') := by
    intro m' h
    obtain ⟨a, rfl⟩ := ParseMultiaddr_no_error h
    obtain ⟨mv, parts, last, p, ps, str, -, -, -, -, -, -, -, hma, -⟩ :=
      body_success (body_of_ParseMultiaddr_some h)
    refine ⟨a, rfl, hma, ?_⟩
    intro heq
    simpa [dms3fsAddr.Multiaddr, hma] using heq
  refine ⟨key m, ?_⟩
  intro h
  obtain ⟨md, hN, hP⟩ := ParseString_no_error h
  obtain ⟨a, ha, hma, heq⟩ := key md hP
  exact ⟨a, md, hN, ha, hma, heq⟩

/-- Evaluation of C1 on `/ip4/1.2.3.4/tcp/1234/dms3fs/QmUCse`, as an address and as
a text. -/
theorem C1_multiaddr_is_input_witness :
    ParseMultiaddr exLib (some exWithTransport) =
        .ret (some ⟨some exWithTransport, "QmUCse"⟩, none) ∧
      ParseString exLib "/ip4/1.2.3.4/tcp/1234/dms3fs/QmUCse" =
        .ret (some ⟨some exWithTransport, "QmUCse"⟩, none) ∧
      (∃ a : dms3fsAddr ExAddr String,
        some ⟨some exWithTransport, "QmUCse"⟩ = some a ∧
          a.Multiaddr = some exWithTransport ∧
          (AddrEqual exLib (some exWithTransport) (some exWithTransport) →
            AddrEqual exLib a.Multiaddr (some exWithTransport))) ∧
      (∃ (a : dms3fsAddr ExAddr String) (md : Option ExAddr),
        exLib.NewMultiaddr "/ip4/1.2.3.4/tcp/1234/dms3fs/QmUCse" = (md, none) ∧
          some ⟨some exWithTransport, "QmUCse"⟩ = some a ∧ a.Multiaddr = md ∧
          (AddrEqual exLib md md → AddrEqual exLib a.Multiaddr md)) :=
  ⟨by decide, by decide,
    (C1_multiaddr_is_input exLib (some exWithTransport)
      "/ip4/1.2.3.4/tcp/1234/dms3fs/QmUCse" _).1 (by decide),
    (C1_multiaddr_is_input exLib (some exWithTransport)
      "/ip4/1.2.3.4/tcp/1234/dms3fs/QmUCse" _).2 (by decide)⟩

/-- C2: when `ParseMultiaddr(m)` succeeds with the address `a`, `m` is not nil, it
splits into segments with a non-nil last one, and `peer.IDB58Decode` of the substring
that follows the final `/` in the string form of that last segment returns `a.ID()`
without error. -/
theorem C2_id_is_decoded_suffix {M PeerID E : Type} (L : Lib M PeerID E) (m : Option M)
    (a : dms3fsAddr M PeerID) (h : ParseMultiaddr L m = .ret (some a, none)) :
    ∃ mv parts last str,
      m = some mv ∧ L.Split mv = .ret parts ∧ parts.getLast? = some (some last) ∧
      L.String last = .ret str ∧
      L.IDB58Decode (afterFinalSlash str) = .ret (a.ID, none) := by
  obtain ⟨mv, parts, last, p, ps, str, hm, hS, hlast, -, -, hStr, hD, -, -⟩ :=
    body_success (body_of_ParseMultiaddr_some h)
  rw [peerIdStrOf_eq_afterFinalSlash] at hD
  exact ⟨mv, parts, last, str, hm, hS, hlast, hStr, hD⟩

/-- Evaluation of C2 on `/ip4/1.2.3.4/tcp/1234/dms3fs/QmUCse`: the identity is the
decoded `QmUCse`. -/
theorem C2_id_is_decoded_suffix_witness :
    ParseMultiaddr exLib (some exWithTransport) =
        .ret (some ⟨some exWithTransport, "QmUCse"⟩, none) ∧
      afterFinalSlash "/dms3fs/QmUCse" = "QmUCse" ∧
      ∃ mv parts last str,
        some exWithTransport = some mv ∧ exLib.Split mv = .ret parts ∧
        parts.getLast? = some (some last) ∧ exLib.String last = .ret str ∧
        exLib.IDB58Decode (afterFinalSlash str) =
          .ret ((⟨some exWithTransport, "QmUCse"⟩ : dms3fsAddr ExAddr String).ID, none) :=
  ⟨by decide, by decide,
    C2_id_is_decoded_suffix exLib (some exWithTransport) ⟨some exWithTransport, "QmUCse"⟩
      (by decide)⟩

/-- C3: `ParseMultiaddr` returns `(nil, ErrInvalidAddr)` when the input is nil, when
`ma.Split` returns no segment, and when the first protocol of the last segment has a code
other than `P_DMS3FS`. -/
theorem C3_structural_rejections {M PeerID E : Type} (L : Lib M PeerID E) (m : Option M) :
    (m = none → ParseMultiaddr L m = .ret (none, some .ErrInvalidAddr)) ∧
    (∀ mv, m = some mv → L.Split mv = .ret [] →
      ParseMultiaddr L m = .ret (none, some .ErrInvalidAddr)) ∧
    (∀ mv parts last p ps, m = some mv → L.Split mv = .ret parts →
      parts.getLast? = some (some last) → L.Protocols last = .ret (p :: ps) →
      p.Code ≠ L.P_DMS3FS →
      ParseMultiaddr L m = .ret (none, some .ErrInvalidAddr)) := by
  refine ⟨?_, ?_, ?_⟩
  · rintro rfl
    rfl
  · rintro mv rfl hS
    apply ParseMultiaddr_of_body_ret
    simp [ParseMultiaddr.body, hS, Go.bind_ret, Go.pure_eq]
  · rintro mv parts last p ps rfl hS hlast hP hc
    have hne : parts ≠ [] := by
      intro h
      simp [h] at hlast
    have hl : parts.getLast hne = some last := by
      rw [List.getLast?_eq_getLast _ hne] at hlast
      exact Option.some.inj hlast
    apply ParseMultiaddr_of_body_ret
    rw [body_step L mv parts hne hS, hl]
    simp [method, hP, Go.bind_ret, index, hc]

/-- Evaluation of C3 on `/dms3fs/QmUCse/tcp/1234`, where further segments follow the
identity segment: the last segment is `/tcp/1234` and the address is rejected. -/
theorem C3_structural_rejections_witness :
    exLib.NewMultiaddr "/dms3fs/QmUCse/tcp/1234" = (some exIdNotLast, none) ∧
      ParseMultiaddr exLib (some exIdNotLast) = .ret (none, some .ErrInvalidAddr) :=
  ⟨by decide,
    (C3_structural_rejections exLib (some exIdNotLast)).2.2 exIdNotLast
      [some [⟨[⟨421, "dms3fs"⟩], "/dms3fs/QmUCse"⟩], some [⟨[⟨6, "tcp"⟩], "/tcp/1234"⟩]]
      [⟨[⟨6, "tcp"⟩], "/tcp/1234"⟩] ⟨6, "tcp"⟩ [] rfl (by decide) (by decide) (by decide)
      (by decide)⟩

/-- C4, the claim as stated fails: on `/dms3fs/Qm-Cse` the last segment has the code
`P_DMS3FS` and the identity text `Qm-Cse` does not decode, yet the error returned by
`ParseMultiaddr` and by `ParseString` is the decoder's own error, not `ErrInvalidAddr`. -/
theorem C4_counterexample :
    exLib.NewMultiaddr "/dms3fs/Qm-Cse" = (some exBadId, none) ∧
      exLib.Split exBadId = .ret [some exBadId] ∧
      exLib.Protocols exBadId = .ret [⟨exLib.P_DMS3FS, "dms3fs"⟩] ∧
      exLib.String exBadId = .ret "/dms3fs/Qm-Cse" ∧
      exLib.IDB58Decode (peerIdStrOf "/dms3fs/Qm-Cse") = .ret ("", some "invalid peer id") ∧
      ParseMultiaddr exLib (some exBadId) ≠ .ret (none, some .ErrInvalidAddr) ∧
      ParseString exLib "/dms3fs/Qm-Cse" ≠ .ret (none, some .ErrInvalidAddr) := by
  decide

/-- C4 as amended: for every multiaddr whose last segment has the code `P_DMS3FS` and
whose identity text makes `peer.IDB58Decode` return the error `e`, `ParseMultiaddr`
returns no address and the error `e` itself, and so does `ParseString` on every non-empty
text that decodes to that multiaddr. -/
theorem C4_decode_error_is_returned {M PeerID E : Type} (L : Lib M PeerID E) (mv : M)
    (parts : List (Option M)) (last : M) (p : Protocol) (ps : List Protocol) (str : String)
    (id : PeerID) (e : E)
    (hS : L.Split mv = .ret parts) (hlast : parts.getLast? = some (some last))
    (hP : L.Protocols last = .ret (p :: ps)) (hc : p.Code = L.P_DMS3FS)
    (hStr : L.String last = .ret str)
    (hD : L.IDB58Decode (peerIdStrOf str) = .ret (id, some e)) :
    ParseMultiaddr L (some mv) = .ret (none, some (.ext e)) ∧
    ∀ s, s ≠ "" → L.NewMultiaddr s = (some mv, none) →
      ParseString L s = .ret (none, some (.ext e)) := by
  have hM : ParseMultiaddr L (some mv) = .ret (none, some (.ext e)) := by
    apply ParseMultiaddr_of_body_ret
    rw [body_decode L mv parts last p ps str hS hlast hP hc hStr, hD]
    rfl
  refine ⟨hM, ?_⟩
  intro s hs hN
  simp only [ParseString, hs, if_false, hN]
  exact hM

/-- Evaluation of the amended C4 on `/dms3fs/Qm-Cse`. -/
theorem C4_decode_error_is_returned_witness :
    ParseMultiaddr exLib (some exBadId) = .ret (none, some (.ext "invalid peer id")) ∧
      ∀ s, s ≠ "" → exLib.NewMultiaddr s = (some exBadId, none) →
        ParseString exLib s = .ret (none, some (.ext "invalid peer id")) :=
  C4_decode_error_is_returned exLib exBadId [some exBadId] exBadId ⟨421, "dms3fs"⟩ []
    "/dms3fs/Qm-Cse" "" "invalid peer id" (by decide) (by decide) (by decide) (by decide)
    (by decide) (by decide)

/-- C5: for every input, `ParseMultiaddr` and `ParseString` return, and they return
either an address with a nil error or a nil address with an error; when the identity text
of the last segment makes `peer.IDB58Decode` return an error, the address returned by
`ParseMultiaddr` is nil. -/
theorem C5_construction_is_atomic {M PeerID E : Type} (L : Lib M PeerID E) (m : Option M)
    (s : String) :
    (∃ res, ParseMultiaddr L m = .ret res ∧ Atomic res) ∧
    (∃ res, ParseString L s = .ret res ∧ Atomic res) ∧
    (∀ mv parts last str id e, m = some mv → L.Split mv = .ret parts →
      parts.getLast? = some (some last) → L.String last = .ret str →
      L.IDB58Decode (peerIdStrOf str) = .ret (id, some e) →
      ∃ err, ParseMultiaddr L m = .ret (none, some err)) := by
  refine ⟨ParseMultiaddr_returns L m, ?_, ?_⟩
  · unfold ParseString
    by_cases hs : s = ""
    · exact ⟨(none, some .ErrInvalidAddr), by simp [hs], Or.inr ⟨_, rfl⟩⟩
    · simp only [hs, if_false]
      rcases hN : L.NewMultiaddr s with ⟨md, e⟩
      cases e with
      | some e => exact ⟨_, rfl, Or.inr ⟨_, rfl⟩⟩
      | none => exact ParseMultiaddr_returns L md
  · intro mv parts last str id e hm hS hlast hStr hD
    obtain ⟨res, hres, hat⟩ := ParseMultiaddr_returns L m
    rcases hat with ⟨a, rfl⟩ | ⟨err, rfl⟩
    · exfalso
      obtain ⟨mv', parts', last', p, ps, str', hm', hS', hlast', -, -, hStr', hD', -, -⟩ :=
        body_success (body_of_ParseMultiaddr_some hres)
      rw [hm] at hm'
      obtain rfl := Option.some.inj hm'
      rw [hS, Go.ret.injEq] at hS'
      subst hS'
      rw [hlast] at hlast'
      obtain rfl := Option.some.inj (Option.some.inj hlast')
      rw [hStr, Go.ret.injEq] at hStr'
      subst hStr'
      rw [hD] at hD'
      simp at hD'
    · exact ⟨err, hres⟩

/-- Evaluation of C5 on `/dms3fs/Qm-Cse`, whose identity text does not decode: no
address is returned. -/
theorem C5_construction_is_atomic_witness :
    ∃ err, ParseMultiaddr exLib (some exBadId) = .ret (none, some err) :=
  (C5_construction_is_atomic exLib (some exBadId) "").2.2 exBadId [some exBadId] exBadId
    "/dms3fs/Qm-Cse" "" "invalid peer id" rfl (by decide) (by decide) (by decide)
    (by decide)

/-- C6: every address returned by `ParseMultiaddr` or by `ParseString` satisfies
Invariant 1: its `Multiaddr()` splits into at least one segment and the protocol code of
the last segment is `P_DMS3FS`. -/
theorem C6_invariant1 {M PeerID E : Type} (L : Lib M PeerID E) (m : Option M) (s : String)
    (a : dms3fsAddr M PeerID) (err : Option (GoError E)) :
    (ParseMultiaddr L m = .ret (some a, err) → Invariant1 L a) ∧
    (ParseString L s = .ret (some a, err) → Invariant1 L a) := by
  have key : ∀ m', ParseMultiaddr L m' = .ret (some a, err) → Invariant1 L a := by
    intro m' h
    obtain ⟨mv, parts, last, p, ps, str, hm, hS, hlast, hP, hc, -, -, hma, -⟩ :=
      body_success (body_of_ParseMultiaddr_some h)
    refine ⟨mv, parts, last, p, ps, ?_, hS, ?_, hlast, hP, hc⟩
    · rw [dms3fsAddr.Multiaddr, hma, hm]
    · cases parts with
      | nil => simp at hlast
      | cons x xs => simp
  refine ⟨key m, ?_⟩
  intro h
  obtain ⟨md, -, hP⟩ := ParseString_some h
  exact key md hP

/-- Evaluation of C6 on `/ip4/1.2.3.4/tcp/1234/dms3fs/QmUCse`, as an address and as
a text. -/
theorem C6_invariant1_witness :
    Invariant1 exLib (⟨some exWithTransport, "QmUCse"⟩ : dms3fsAddr ExAddr String) ∧
      Invariant1 exLib (⟨some exWithTransport, "QmUCse"⟩ : dms3fsAddr ExAddr String) :=
  ⟨(C6_invariant1 exLib (some exWithTransport) "" ⟨some exWithTransport, "QmUCse"⟩
      none).1 (by decide),
    (C6_invariant1 exLib none "/ip4/1.2.3.4/tcp/1234/dms3fs/QmUCse"
      ⟨some exWithTransport, "QmUCse"⟩ none).2 (by decide)⟩

/-- C7: `ParseMultiaddr` never panics. For every input it returns; whenever its body
panics the result is exactly `(nil, ErrInvalidAddr)`; and this is what happens when
`ma.Split` panics, when the last segment is nil, when its `Protocols()` panics or is
empty (so that element 0 is out of range), when its `String()` panics and when
`peer.IDB58Decode` panics. -/
theorem C7_never_panics {M PeerID E : Type} (L : Lib M PeerID E) (m : Option M) :
    (∃ res, ParseMultiaddr L m = .ret res) ∧
    (∀ r, ParseMultiaddr.body L m = .panic r →
      ParseMultiaddr L m = .ret (none, some .ErrInvalidAddr)) ∧
    (∀ mv r, m = some mv → L.Split mv = .panic r →
      ParseMultiaddr L m = .ret (none, some .ErrInvalidAddr)) ∧
    (∀ mv parts, m = some mv → L.Split mv = .ret parts → parts.getLast? = some none →
      ParseMultiaddr L m = .ret (none, some .ErrInvalidAddr)) ∧
    (∀ mv parts last r, m = some mv → L.Split mv = .ret parts →
      parts.getLast? = some (some last) → L.Protocols last = .panic r →
      ParseMultiaddr L m = .ret (none, some .ErrInvalidAddr)) ∧
    (∀ mv parts last, m = some mv → L.Split mv = .ret parts →
      parts.getLast? = some (some last) → L.Protocols last = .ret [] →
      ParseMultiaddr L m = .ret (none, some .ErrInvalidAddr)) ∧
    (∀ mv parts last p ps r, m = some mv → L.Split mv = .ret parts →
      parts.getLast? = some (some last) → L.Protocols last = .ret (p :: ps) →
      p.Code = L.P_DMS3FS → L.String last = .panic r →
      ParseMultiaddr L m = .ret (none, some .ErrInvalidAddr)) ∧
    (∀ mv parts last p ps str r, m = some mv → L.Split mv = .ret parts →
      parts.getLast? = some (some last) → L.Protocols last = .ret (p :: ps) →
      p.Code = L.P_DMS3FS → L.String last = .ret str →
      L.IDB58Decode (peerIdStrOf str) = .panic r →
      ParseMultiaddr L m = .ret (none, some .ErrInvalidAddr)) := by
  have hlastEq : ∀ (parts : List (Option M)) (x : Option M) (hne : parts ≠ []),
      parts.getLast? = some x → parts.getLast hne = x := by
    intro parts x hne h
    rw [List.getLast?_eq_getLast _ hne] at h
    exact Option.some.inj h
  have hneOf : ∀ (parts : List (Option M)) (x : Option M),
      parts.getLast? = some x → parts ≠ [] := by
    intro parts x h hnil
    simp [hnil] at h
  refine ⟨?_, ?_, ?_, ?_, ?_, ?_, ?_, ?_⟩
  · obtain ⟨res, hres, -⟩ := ParseMultiaddr_returns L m
    exact ⟨res, hres⟩
  · intro r h
    exact ParseMultiaddr_of_body_panic h
  · rintro mv r rfl hS
    apply ParseMultiaddr_of_body_panic (r := r)
    simp [ParseMultiaddr.body, hS, Go.bind_panic]
  · rintro mv parts rfl hS hlast
    have hne := hneOf parts _ hlast
    apply ParseMultiaddr_of_body_panic (r := .nilDereference)
    rw [body_step L mv parts hne hS, hlastEq parts _ hne hlast]
    rfl
  · rintro mv parts last r rfl hS hlast hP
    have hne := hneOf parts _ hlast
    apply ParseMultiaddr_of_body_panic (r := r)
    rw [body_step L mv parts hne hS, hlastEq parts _ hne hlast]
    simp [method, hP, Go.bind_panic]
  · rintro mv parts last rfl hS hlast hP
    have hne := hneOf parts _ hlast
    apply ParseMultiaddr_of_body_panic (r := .indexOutOfRange 0 0)
    rw [body_step L mv parts hne hS, hlastEq parts _ hne hlast]
    simp [method, hP, Go.bind_ret, index, Go.bind_panic]
  · rintro mv parts last p ps r rfl hS hlast hP hc hStr
    have hne := hneOf parts _ hlast
    apply ParseMultiaddr_of_body_panic (r := r)
    rw [body_step L mv parts hne hS, hlastEq parts _ hne hlast]
    simp [method, hP, Go.bind_ret, index, hc, hStr, Go.bind_panic]
  · rintro mv parts last p ps str r rfl hS hlast hP hc hStr hD
    apply ParseMultiaddr_of_body_panic (r := r)
    rw [body_decode L mv parts last p ps str hS hlast hP hc hStr, hD]
    rfl

/-- Evaluation of C7 on an address whose only segment has an empty `Protocols()`:
the body panics on element 0 and the result is `(nil, ErrInvalidAddr)`. -/
theorem C7_never_panics_witness :
    ParseMultiaddr.body exLib (some exNoProtocol) = .panic (.indexOutOfRange 0 0) ∧
      ParseMultiaddr exLib (some exNoProtocol) = .ret (none, some .ErrInvalidAddr) :=
  ⟨by decide,
    (C7_never_panics exLib (some exNoProtocol)).2.2.2.2.2.1 exNoProtocol
      [some exNoProtocol] exNoProtocol rfl (by decide) (by decide) (by decide)⟩

/-- C8, the claim as stated fails: the string form `QmUCse` of the last segment has no
`/`, its protocol code is `P_DMS3FS`, and `ParseMultiaddr` accepts the address, with the
whole string form decoded as the identity. -/
theorem C8_counterexample :
    exLib.Split exNoSeparator = .ret [some exNoSeparator] ∧
      exLib.String exNoSeparator = .ret "QmUCse" ∧
      '/' ∉ "QmUCse".data ∧
      ParseMultiaddr exLib (some exNoSeparator) =
        .ret (some ⟨some exNoSeparator, "QmUCse"⟩, none) ∧
      ParseMultiaddr exLib (some exNoSeparator) ≠ .ret (none, some .ErrInvalidAddr) := by
  decide

/-- C8 as amended: for every multiaddr whose last segment's string form contains no
`/`, `ParseMultiaddr` does not crash and takes the whole string form as the identity
text: it returns `ErrInvalidAddr` when the last segment's protocol code is not
`P_DMS3FS`; when the code is `P_DMS3FS` it returns the decoder's error if the whole
string form fails to decode, and the address with the decoded identity if it decodes. -/
theorem C8_no_separator {M PeerID E : Type} (L : Lib M PeerID E) (mv : M)
    (parts : List (Option M)) (last : M) (str : String)
    (hS : L.Split mv = .ret parts) (hlast : parts.getLast? = some (some last))
    (hStr : L.String last = .ret str) (hno : '/' ∉ str.data) :
    (∃ res, ParseMultiaddr L (some mv) = .ret res) ∧
    (∀ p ps, L.Protocols last = .ret (p :: ps) → p.Code ≠ L.P_DMS3FS →
      ParseMultiaddr L (some mv) = .ret (none, some .ErrInvalidAddr)) ∧
    (∀ p ps id e, L.Protocols last = .ret (p :: ps) → p.Code = L.P_DMS3FS →
      L.IDB58Decode str = .ret (id, some e) →
      ParseMultiaddr L (some mv) = .ret (none, some (.ext e))) ∧
    (∀ p ps id, L.Protocols last = .ret (p :: ps) → p.Code = L.P_DMS3FS →
      L.IDB58Decode str = .ret (id, none) →
      ParseMultiaddr L (some mv) = .ret (some ⟨some mv, id⟩, none)) := by
  have hpiece : peerIdStrOf str = str := peerIdStrOf_of_no_slash str hno
  refine ⟨?_, ?_, ?_, ?_⟩
  · obtain ⟨res, hres, -⟩ := ParseMultiaddr_returns L (some mv)
    exact ⟨res, hres⟩
  · intro p ps hP hc
    have hne : parts ≠ [] := by
      intro h
      simp [h] at hlast
    have hl : parts.getLast hne = some last := by
      rw [List.getLast?_eq_getLast _ hne] at hlast
      exact Option.some.inj hlast
    apply ParseMultiaddr_of_body_ret
    rw [body_step L mv parts hne hS, hl]
    simp [method, hP, Go.bind_ret, index, hc]
  · intro p ps id e hP hc hD
    apply ParseMultiaddr_of_body_ret
    rw [body_decode L mv parts last p ps str hS hlast hP hc hStr, hpiece, hD]
    rfl
  · intro p ps id hP hc hD
    apply ParseMultiaddr_of_body_ret
    rw [body_decode L mv parts last p ps str hS hlast hP hc hStr, hpiece, hD]
    rfl

/-- Evaluation of the amended C8 on the address whose only segment has the string
form `QmUCse`: it is accepted with the identity `QmUCse`. -/
theorem C8_no_separator_witness :
    ParseMultiaddr exLib (some exNoSeparator) =
      .ret (some ⟨some exNoSeparator, "QmUCse"⟩, none) :=
  (C8_no_separator exLib exNoSeparator [some exNoSeparator] exNoSeparator "QmUCse"
    (by decide) (by decide) (by decide) (by decide)).2.2.2 ⟨421, "dms3fs"⟩ [] "QmUCse"
    (by decide) (by decide) (by decide)

/-- C9: for every non-empty string `s`, `ParseString(s)` is the specification's text
entry point: when `ma.NewMultiaddr(s)` returns the error `e` the result is `(nil, e)`,
otherwise it is `ParseMultiaddr` of the decoded multiaddr. -/
theorem C9_parse_string_refines {M PeerID E : Type} (L : Lib M PeerID E) (s : String)
    (hs : s ≠ "") :
    ParseString L s = ParseString_spec L s ∧
    (∀ md e, L.NewMultiaddr s = (md, some e) →
      ParseString L s = .ret (none, some (.ext e))) ∧
    (∀ md, L.NewMultiaddr s = (md, none) → ParseString L s = ParseMultiaddr L md) := by
  refine ⟨?_, ?_, ?_⟩
  · simp only [ParseString, hs, if_false, ParseString_spec]
  · intro md e hN
    simp only [ParseString, hs, if_false, hN]
  · intro md hN
    simp only [ParseString, hs, if_false, hN]

/-- Evaluation of C9 on the text `dms3fs/QmUCse`, which the decoder refuses: its
error comes back as it is. -/
theorem C9_parse_string_refines_witness :
    ParseString exLib "dms3fs/QmUCse" =
      .ret (none, some (.ext "invalid multiaddr, must begin with /")) :=
  (C9_parse_string_refines exLib "dms3fs/QmUCse" (by decide)).2.1 none
    "invalid multiaddr, must begin with /" (by decide)

/-- C10: `ParseString("")` returns `(nil, ErrInvalidAddr)` whatever the library is, and
in particular whatever `ma.NewMultiaddr` is replaced with: the result does not go through
the address decoder. -/
theorem C10_empty_string {M PeerID E : Type} (L : Lib M PeerID E)
    (decoder : String → Option M × Option E) :
    ParseString L "" = .ret (none, some .ErrInvalidAddr) ∧
    ParseString { L with NewMultiaddr := decoder } "" = .ret (none, some .ErrInvalidAddr) := by
  constructor <;> simp [ParseString]

/-! ## Lemmas on `Transport` -/

/-- The slice `xs[:len(xs)-1]` of a non-empty slice is in bounds: it is `xs` without its
last element. -/
theorem sliceTo_of_ne_nil {α : Type} (xs : List α) (h : xs ≠ []) :
    sliceTo xs ((xs.length : Int) - 1) = .ret xs.dropLast := by
  have hpos : 1 ≤ xs.length := by
    cases xs with
    | nil => exact absurd rfl h
    | cons a t => simp
  have hcast : ((xs.length : Int) - 1) = ((xs.length - 1 : Nat) : Int) := by
    omega
  unfold sliceTo
  rw [hcast]
  have hb : (0 : Int) ≤ ((xs.length - 1 : Nat) : Int) ∧
      ((xs.length - 1 : Nat) : Int) ≤ (xs.length : Int) := by
    constructor <;> omega
  rw [if_pos hb, Int.toNat_ofNat, List.dropLast_eq_take]

/-- The slice `xs[:len(xs)-1]` of an empty slice is out of bounds. -/
theorem sliceTo_nil {α : Type} :
    sliceTo ([] : List α) ((([] : List α).length : Int) - 1) =
      .panic (.sliceBoundsOutOfRange (-1) 0) := by
  simp [sliceTo]

/-- `Transport` on an address whose multiaddr is not nil, in terms of the library calls. -/
theorem Transport_unfold {M PeerID E : Type} (L : Lib M PeerID E) (a : dms3fsAddr M PeerID)
    (mv : M) (h : a.Multiaddr = some mv) :
    Transport L (some a) =
      (L.ValueForProtocol mv L.P_CIRCUIT >>= fun r =>
        match r.2 with
        | none => Go.ret (some mv)
        | some _ =>
          L.Split mv >>= fun split =>
            if split.length = 1 then Go.ret none
            else sliceTo split ((split.length : Int) - 1) >>= fun front => L.Join front) := by
  simp only [Transport, method, Go.bind_ret, h]
  rfl

/-- `Transport` when the circuit lookup fails and `ma.Split` returns `parts`. -/
theorem Transport_no_circuit {M PeerID E : Type} (L : Lib M PeerID E)
    (a : dms3fsAddr M PeerID) (mv : M) (v : String) (e : E) (parts : List (Option M))
    (h : a.Multiaddr = some mv) (hV : L.ValueForProtocol mv L.P_CIRCUIT = .ret (v, some e))
    (hS : L.Split mv = .ret parts) :
    Transport L (some a) =
      if parts.length = 1 then Go.ret none
      else sliceTo parts ((parts.length : Int) - 1) >>= fun front => L.Join front := by
  rw [Transport_unfold L a mv h, hV]
  simp only [Go.bind_ret, hS]

/-- A parsed address keeps a non-nil multiaddr that splits into at least one segment. -/
theorem parsed_split {M PeerID E : Type} {L : Lib M PeerID E} {m : Option M} {s : String}
    {a : dms3fsAddr M PeerID}
    (h : ParseMultiaddr L m = .ret (some a, none) ∨ ParseString L s = .ret (some a, none)) :
    ∃ md mv parts, ParseMultiaddr L md = .ret (some a, none) ∧ a.Multiaddr = md ∧
      md = some mv ∧ L.Split mv = .ret parts ∧ parts ≠ [] := by
  have key : ∀ md, ParseMultiaddr L md = .ret (some a, none) →
      ∃ mv parts, a.Multiaddr = md ∧ md = some mv ∧ L.Split mv = .ret parts ∧ parts ≠ [] := by
    intro md hmd
    obtain ⟨mv, parts, last, p, ps, str, hm, hS, hlast, -, -, -, -, hma, -⟩ :=
      body_success (body_of_ParseMultiaddr_some hmd)
    refine ⟨mv, parts, hma, hm, hS, ?_⟩
    intro hnil
    simp [hnil] at hlast
  rcases h with h | h
  · obtain ⟨mv, parts, h1, h2, h3, h4⟩ := key m h
    exact ⟨m, mv, parts, h, h1, h2, h3, h4⟩
  · obtain ⟨md, -, hP⟩ := ParseString_some h
    obtain ⟨mv, parts, h1, h2, h3, h4⟩ := key md hP
    exact ⟨md, mv, parts, hP, h1, h2, h3, h4⟩

/-- The outcome of `ParseMultiaddr` is decided by the last segment alone: either every
multiaddr ending in `last` is refused with one and the same error, or every one is
accepted with one and the same identity. -/
theorem last_segment_decides {M PeerID E : Type} (L : Lib M PeerID E) (last : Option M) :
    (∃ e : GoError E, ∀ mv parts, L.Split mv = .ret parts → parts.getLast? = some last →
      ParseMultiaddr L (some mv) = .ret (none, some e)) ∨
    (∃ id : PeerID, ∀ mv parts, L.Split mv = .ret parts → parts.getLast? = some last →
      ParseMultiaddr L (some mv) = .ret (some ⟨some mv, id⟩, none)) := by
  have hstep : ∀ mv parts, L.Split mv = .ret parts → parts.getLast? = some last →
      ParseMultiaddr.body L (some mv) =
        (method last L.Protocols >>= fun protocols =>
          index protocols 0 >>= fun p0 =>
            if p0.Code ≠ L.P_DMS3FS then Go.ret (none, some .ErrInvalidAddr)
            else method last L.String >>= fun str =>
              L.IDB58Decode (peerIdStrOf str) >>= fun r =>
                match r.2 with
                | some e => Go.ret (none, some (.ext e))
                | none => Go.ret (some { ma := some mv, id := r.1 }, none)) := by
    intro mv parts hS hlast
    have hne : parts ≠ [] := by
      intro h
      simp [h] at hlast
    have hl : parts.getLast hne = last := by
      rw [List.getLast?_eq_getLast _ hne] at hlast
      exact Option.some.inj hlast
    rw [body_step L mv parts hne hS, hl]
  have refuse : ∀ r : PanicValue,
      (∀ mv parts, L.Split mv = .ret parts → parts.getLast? = some last →
        ParseMultiaddr.body L (some mv) = .panic r) →
      ∃ e : GoError E, ∀ mv parts, L.Split mv = .ret parts → parts.getLast? = some last →
        ParseMultiaddr L (some mv) = .ret (none, some e) := by
    intro r h
    exact ⟨.ErrInvalidAddr, fun mv parts hS hlast =>
      ParseMultiaddr_of_body_panic (h mv parts hS hlast)⟩
  cases last with
  | none =>
    left
    apply refuse .nilDereference
    intro mv parts hS hlast
    rw [hstep mv parts hS hlast]
    rfl
  | some lastv =>
    simp only [method] at hstep
    cases hP : L.Protocols lastv with
    | panic r =>
      left
      apply refuse r
      intro mv parts hS hlast
      rw [hstep mv parts hS hlast, hP]
      rfl
    | ret protocols =>
      cases protocols with
      | nil =>
        left
        apply refuse (.indexOutOfRange 0 0)
        intro mv parts hS hlast
        rw [hstep mv parts hS hlast, hP]
        rfl
      | cons p ps =>
        by_cases hc : p.Code = L.P_DMS3FS
        · cases hStr : L.String lastv with
          | panic r =>
            left
            apply refuse r
            intro mv parts hS hlast
            rw [hstep mv parts hS hlast, hP]
            simp [Go.bind_ret, index, hc, hStr, Go.bind_panic]
          | ret str =>
            cases hD : L.IDB58Decode (peerIdStrOf str) with
            | panic r =>
              left
              apply refuse r
              intro mv parts hS hlast
              rw [hstep mv parts hS hlast, hP]
              simp [Go.bind_ret, index, hc, hStr, hD, Go.bind_panic]
            | ret res =>
              obtain ⟨id, err⟩ := res
              cases err with
              | some e =>
                left
                refine ⟨.ext e, ?_⟩
                intro mv parts hS hlast
                apply ParseMultiaddr_of_body_ret
                rw [hstep mv parts hS hlast, hP]
                simp [Go.bind_ret, index, hc, hStr, hD]
              | none =>
                right
                refine ⟨id, ?_⟩
                intro mv parts hS hlast
                apply ParseMultiaddr_of_body_ret
                rw [hstep mv parts hS hlast, hP]
                simp [Go.bind_ret, index, hc, hStr, hD]
        · left
          refine ⟨.ErrInvalidAddr, ?_⟩
          intro mv parts hS hlast
          apply ParseMultiaddr_of_body_ret
          rw [hstep mv parts hS hlast, hP]
          simp [Go.bind_ret, index, hc]

/-- In the example library, address-equal multiaddrs are the same multiaddr. -/
theorem exLib_equal_true (x y : ExAddr) (h : exLib.Equal x (some y) = .ret true) : x = y := by
  simp only [exLib, Go.ret.injEq, decide_eq_true_eq, Option.some.injEq] at h
  exact h

/-! ## The claims on `Transport`, `Equal` and the round trip -/

/-- C11: for every address whose multiaddr carries a value for the protocol code
`P_CIRCUIT` (the lookup `ValueForProtocol` returns a nil error), `Transport` returns
`a.Multiaddr()` itself, whatever `ma.Split` would make of it; so does the method
`a.Transport()`. -/
theorem C11_circuit_is_unchanged {M PeerID E : Type} (L : Lib M PeerID E)
    (a : dms3fsAddr M PeerID) (mv : M) (v : String) (h : a.Multiaddr = some mv)
    (hV : L.ValueForProtocol mv L.P_CIRCUIT = .ret (v, none)) :
    Transport L (some a) = .ret a.Multiaddr ∧ a.Transport L = .ret a.Multiaddr := by
  have key : Transport L (some a) = .ret a.Multiaddr := by
    rw [Transport_unfold L a mv h, hV, h]
    rfl
  exact ⟨key, key⟩

/-- Evaluation of C11 on the relay address `/dms3fs/QmRelay/p2p-circuit/dms3fs/QmUCse`:
the three segments come back, the identity segment included. -/
theorem C11_circuit_is_unchanged_witness :
    Transport exLib (some ⟨some exCircuit, "QmUCse"⟩) = .ret (some exCircuit) ∧
      (⟨some exCircuit, "QmUCse"⟩ : dms3fsAddr ExAddr String).Transport exLib =
        .ret (some exCircuit) :=
  C11_circuit_is_unchanged exLib ⟨some exCircuit, "QmUCse"⟩ exCircuit "p2p-circuit" rfl
    (by decide)

/-- C12: for every address without a circuit-relay value (the lookup returns an error)
whose multiaddr splits into exactly one segment, `Transport` returns nil. -/
theorem C12_identity_alone_has_no_transport {M PeerID E : Type} (L : Lib M PeerID E)
    (a : dms3fsAddr M PeerID) (mv : M) (v : String) (e : E) (parts : List (Option M))
    (h : a.Multiaddr = some mv)
    (hV : L.ValueForProtocol mv L.P_CIRCUIT = .ret (v, some e))
    (hS : L.Split mv = .ret parts) (hlen : parts.length = 1) :
    Transport L (some a) = .ret none := by
  rw [Transport_no_circuit L a mv v e parts h hV hS, if_pos hlen]

/-- Evaluation of C12 on `/dms3fs/QmUCse`. -/
theorem C12_identity_alone_has_no_transport_witness :
    ParseString exLib "/dms3fs/QmUCse" = .ret (some ⟨some exIdOnly, "QmUCse"⟩, none) ∧
      Transport exLib (some ⟨some exIdOnly, "QmUCse"⟩) = .ret none :=
  ⟨by decide,
    C12_identity_alone_has_no_transport exLib ⟨some exIdOnly, "QmUCse"⟩ exIdOnly ""
      "protocol not found in multiaddr" [some exIdOnly] rfl (by decide) (by decide)
      (by decide)⟩

/-- C13: for every address without a circuit-relay value whose multiaddr splits into two
or more segments, and so for every parsed one, `Transport` is `ma.Join` of the segments
of `ma.Split(a.Multiaddr())` without the last one, in their order. -/
theorem C13_transport_is_joined_front {M PeerID E : Type} (L : Lib M PeerID E)
    (a : dms3fsAddr M PeerID) (mv : M) (v : String) (e : E) (parts : List (Option M))
    (h : a.Multiaddr = some mv)
    (hV : L.ValueForProtocol mv L.P_CIRCUIT = .ret (v, some e))
    (hS : L.Split mv = .ret parts) (hlen : 2 ≤ parts.length) :
    Transport L (some a) = L.Join parts.dropLast := by
  have hne : parts ≠ [] := by
    intro hnil
    simp [hnil] at hlen
  have h1 : ¬ parts.length = 1 := by omega
  rw [Transport_no_circuit L a mv v e parts h hV hS, if_neg h1, sliceTo_of_ne_nil parts hne]
  rfl

/-- Evaluation of C13 on `/ip4/1.2.3.4/tcp/1234/dms3fs/QmUCse`: the transport is
`/ip4/1.2.3.4/tcp/1234`. -/
theorem C13_transport_is_joined_front_witness :
    ParseString exLib "/ip4/1.2.3.4/tcp/1234/dms3fs/QmUCse" =
        .ret (some ⟨some exWithTransport, "QmUCse"⟩, none) ∧
      exLib.NewMultiaddr "/ip4/1.2.3.4/tcp/1234" = (some exTransportOnly, none) ∧
      exLib.Join [some [⟨[⟨4, "ip4"⟩], "/ip4/1.2.3.4"⟩], some [⟨[⟨6, "tcp"⟩], "/tcp/1234"⟩]] =
        .ret (some exTransportOnly) ∧
      Transport exLib (some ⟨some exWithTransport, "QmUCse"⟩) =
        exLib.Join ([some [⟨[⟨4, "ip4"⟩], "/ip4/1.2.3.4"⟩],
          some [⟨[⟨6, "tcp"⟩], "/tcp/1234"⟩],
          some [⟨[⟨421, "dms3fs"⟩], "/dms3fs/QmUCse"⟩]] : List (Option ExAddr)).dropLast :=
  ⟨by decide, by decide, by decide,
    C13_transport_is_joined_front exLib ⟨some exWithTransport, "QmUCse"⟩ exWithTransport ""
      "protocol not found in multiaddr" _ rfl (by decide) (by decide) (by decide)⟩

/-- C14: for every address returned by `ParseMultiaddr` or by `ParseString`, the
multiaddr is not nil and splits into at least one segment, so that the slice
`split[:len(split)-1]` is in bounds. `Transport` then has no fault of its own: it is the
multiaddr when the circuit lookup finds a value, nil when the lookup fails and there is
one segment, `ma.Join` of the front segments otherwise; and it returns a multiaddr or nil
whenever the library's lookup and join return. -/
theorem C14_transport_is_total {M PeerID E : Type} (L : Lib M PeerID E) (m : Option M)
    (s : String) (a : dms3fsAddr M PeerID)
    (hparsed : ParseMultiaddr L m = .ret (some a, none) ∨
      ParseString L s = .ret (some a, none)) :
    ∃ mv parts,
      a.Multiaddr = some mv ∧ L.Split mv = .ret parts ∧
      sliceTo parts ((parts.length : Int) - 1) = .ret parts.dropLast ∧
      (∀ v, L.ValueForProtocol mv L.P_CIRCUIT = .ret (v, none) →
        Transport L (some a) = .ret (some mv)) ∧
      (∀ v e, L.ValueForProtocol mv L.P_CIRCUIT = .ret (v, some e) → parts.length = 1 →
        Transport L (some a) = .ret none) ∧
      (∀ v e, L.ValueForProtocol mv L.P_CIRCUIT = .ret (v, some e) → parts.length ≠ 1 →
        Transport L (some a) = L.Join parts.dropLast) ∧
      (∀ r, L.ValueForProtocol mv L.P_CIRCUIT = .ret r →
        (∃ t, L.Join parts.dropLast = .ret t) →
        ∃ t, Transport L (some a) = .ret t) := by
  obtain ⟨md, mv, parts, -, hma, hmd, hS, hne⟩ := parsed_split hparsed
  have hmv : a.Multiaddr = some mv := by rw [hma, hmd]
  have hslice := sliceTo_of_ne_nil parts hne
  have h1 : ∀ v, L.ValueForProtocol mv L.P_CIRCUIT = .ret (v, none) →
      Transport L (some a) = .ret (some mv) := by
    intro v hV
    rw [Transport_unfold L a mv hmv, hV]
    rfl
  have h2 : ∀ v e, L.ValueForProtocol mv L.P_CIRCUIT = .ret (v, some e) →
      parts.length = 1 → Transport L (some a) = .ret none := by
    intro v e hV hlen
    rw [Transport_no_circuit L a mv v e parts hmv hV hS, if_pos hlen]
  have h3 : ∀ v e, L.ValueForProtocol mv L.P_CIRCUIT = .ret (v, some e) →
      parts.length ≠ 1 → Transport L (some a) = L.Join parts.dropLast := by
    intro v e hV hlen
    rw [Transport_no_circuit L a mv v e parts hmv hV hS, if_neg hlen, hslice]
    rfl
  refine ⟨mv, parts, hmv, hS, hslice, h1, h2, h3, ?_⟩
  rintro ⟨v, err⟩ hV ⟨t, ht⟩
  cases err with
  | none => exact ⟨some mv, h1 v hV⟩
  | some e =>
    by_cases hlen : parts.length = 1
    · exact ⟨none, h2 v e hV hlen⟩
    · exact ⟨t, by rw [h3 v e hV hlen, ht]⟩

/-- Evaluation of C14 on the parsed `/ip4/1.2.3.4/tcp/1234/dms3fs/QmUCse`. -/
theorem C14_transport_is_total_witness :
    ParseMultiaddr exLib (some exWithTransport) =
        .ret (some ⟨some exWithTransport, "QmUCse"⟩, none) ∧
      Transport exLib (some ⟨some exWithTransport, "QmUCse"⟩) = .ret (some exTransportOnly) ∧
      ∃ (mv : ExAddr) (parts : List (Option ExAddr)),
        (⟨some exWithTransport, "QmUCse"⟩ : dms3fsAddr ExAddr String).Multiaddr = some mv ∧
        exLib.Split mv = .ret parts ∧
        sliceTo parts ((parts.length : Int) - 1) = .ret parts.dropLast ∧
        (∀ v, exLib.ValueForProtocol mv exLib.P_CIRCUIT = .ret (v, none) →
          Transport exLib (some ⟨some exWithTransport, "QmUCse"⟩) = .ret (some mv)) ∧
        (∀ v e, exLib.ValueForProtocol mv exLib.P_CIRCUIT = .ret (v, some e) →
          parts.length = 1 →
          Transport exLib (some ⟨some exWithTransport, "QmUCse"⟩) = .ret none) ∧
        (∀ v e, exLib.ValueForProtocol mv exLib.P_CIRCUIT = .ret (v, some e) →
          parts.length ≠ 1 →
          Transport exLib (some ⟨some exWithTransport, "QmUCse"⟩) =
            exLib.Join parts.dropLast) ∧
        (∀ r, exLib.ValueForProtocol mv exLib.P_CIRCUIT = .ret r →
          (∃ t, exLib.Join parts.dropLast = .ret t) →
          ∃ t, Transport exLib (some ⟨some exWithTransport, "QmUCse"⟩) = .ret t) :=
  ⟨by decide, by decide,
    C14_transport_is_total exLib (some exWithTransport) ""
      ⟨some exWithTransport, "QmUCse"⟩ (Or.inl (by decide))⟩

/-- C15, the claim as stated fails: the address whose only segment has the string form
`QmUCse` is parsed successfully, its `String()` is the text `QmUCse`, and `ParseString`
on that text returns the decoder's error and no address. -/
theorem C15_counterexample :
    ParseMultiaddr exLib (some exNoSeparator) =
        .ret (some ⟨some exNoSeparator, "QmUCse"⟩, none) ∧
      (⟨some exNoSeparator, "QmUCse"⟩ : dms3fsAddr ExAddr String).String exLib =
        .ret "QmUCse" ∧
      ParseString exLib "QmUCse" =
        .ret (none, some (.ext "invalid multiaddr, must begin with /")) ∧
      ¬ ∃ b : dms3fsAddr ExAddr String,
        ((⟨some exNoSeparator, "QmUCse"⟩ : dms3fsAddr ExAddr String).String exLib >>=
          fun text => ParseString exLib text) = .ret (some b, none) := by
  refine ⟨by decide, by decide, by decide, ?_⟩
  rintro ⟨b, hb⟩
  have hrun : ((⟨some exNoSeparator, "QmUCse"⟩ : dms3fsAddr ExAddr String).String exLib >>=
      fun text => ParseString exLib text) =
      .ret (none, some (.ext "invalid multiaddr, must begin with /")) := by
    decide
  rw [hrun] at hb
  simp at hb

/-- C15 as amended: for every address `a` returned by `ParseMultiaddr` or by
`ParseString`, if `a.String()` returns a non-empty text that `ma.NewMultiaddr` decodes
into a multiaddr address-equal to `a.Multiaddr()`, and address-equal multiaddrs split
into the same segments, then `ParseString(a.String())` succeeds with an address `b`
holding the decoded multiaddr, `a.Equal(b)` is true and `b.ID()` is `a.ID()`. -/
theorem C15_round_trip {M PeerID E : Type} (L : Lib M PeerID E) (m : Option M) (s : String)
    (a : dms3fsAddr M PeerID) (str : String) (decoded : M)
    (hparsed : ParseMultiaddr L m = .ret (some a, none) ∨
      ParseString L s = .ret (some a, none))
    (hStr : a.String L = .ret str) (hne : str ≠ "")
    (hdecode : L.NewMultiaddr str = (some decoded, none))
    (hequal : AddrEqual L a.Multiaddr (some decoded))
    (hsplit : ∀ x y, L.Equal x (some y) = .ret true → L.Split y = L.Split x) :
    ∃ b, (a.String L >>= fun text => ParseString L text) = .ret (some b, none) ∧
      b.Multiaddr = some decoded ∧ a.Equal L (.addr b) = .ret true ∧ b.ID = a.ID := by
  obtain ⟨md, mv, parts, hP, hma, hmd, -, -⟩ := parsed_split hparsed
  obtain ⟨mv1, parts1, last, p, ps, lstr, hm1, hS, hlast, hPr, hc, hLs, hD, -, -⟩ :=
    body_success (body_of_ParseMultiaddr_some hP)
  obtain ⟨xv, hx, hE⟩ := hequal
  have hxv : xv = mv1 := by
    rw [hma, hm1] at hx
    exact (Option.some.inj hx).symm
  subst hxv
  have hS2 : L.Split decoded = .ret parts1 := by
    rw [hsplit xv decoded hE, hS]
  have hb : ParseMultiaddr L (some decoded) = .ret (some ⟨some decoded, a.id⟩, none) := by
    apply ParseMultiaddr_of_body_ret
    rw [body_decode L decoded parts1 last p ps lstr hS2 hlast hPr hc hLs, hD]
    rfl
  refine ⟨⟨some decoded, a.id⟩, ?_, rfl, ?_, rfl⟩
  · rw [hStr, Go.bind_ret]
    simp only [ParseString, hne, if_false, hdecode]
    exact hb
  · have hx2 : a.ma = some xv := hx
    simp only [dms3fsAddr.Equal, Value.asDMS3FSAddr, method, dms3fsAddr.Multiaddr, hx2]
    exact hE

/-- Evaluation of the amended C15 on the parsed `/ip4/1.2.3.4/tcp/1234/dms3fs/QmUCse`. -/
theorem C15_round_trip_witness :
    (⟨some exWithTransport, "QmUCse"⟩ : dms3fsAddr ExAddr String).String exLib =
        .ret "/ip4/1.2.3.4/tcp/1234/dms3fs/QmUCse" ∧
      ∃ b : dms3fsAddr ExAddr String,
        ((⟨some exWithTransport, "QmUCse"⟩ : dms3fsAddr ExAddr String).String exLib >>=
          fun text => ParseString exLib text) = .ret (some b, none) ∧
        b.Multiaddr = some exWithTransport ∧
        (⟨some exWithTransport, "QmUCse"⟩ : dms3fsAddr ExAddr String).Equal exLib (.addr b) =
          .ret true ∧
        b.ID = (⟨some exWithTransport, "QmUCse"⟩ : dms3fsAddr ExAddr String).ID :=
  ⟨by decide,
    C15_round_trip exLib (some exWithTransport) "" ⟨some exWithTransport, "QmUCse"⟩
      "/ip4/1.2.3.4/tcp/1234/dms3fs/QmUCse" exWithTransport (Or.inl (by decide)) (by decide)
      (by decide) (by decide) ⟨exWithTransport, rfl, by decide⟩
      (fun x y hE => by rw [exLib_equal_true x y hE])⟩

/-- C16: `a.Equal(b)` returns true exactly when `b` is a `DMS3FSAddr` and
`a.Multiaddr().Equal(b.Multiaddr())` returns true, or `b` is a bare multiaddr and
`a.Multiaddr().Equal(b)` returns true; it returns false for nil and for a value of any
other type. -/
theorem C16_equal {M PeerID E : Type} (L : Lib M PeerID E) (a : dms3fsAddr M PeerID)
    (b : Value M PeerID) :
    (a.Equal L b = .ret true ↔
      (∃ ib, b = .addr ib ∧ AddrEqual L a.Multiaddr ib.Multiaddr) ∨
      (∃ mb, b = .multiaddr mb ∧ AddrEqual L a.Multiaddr (some mb))) ∧
    a.Equal L .nil = .ret false ∧
    (∀ typeName, a.Equal L (.other typeName) = .ret false) := by
  have hmethod : ∀ y : Option M,
      method a.Multiaddr (fun mv => L.Equal mv y) = .ret true ↔ AddrEqual L a.Multiaddr y := by
    intro y
    unfold AddrEqual
    cases hm : a.Multiaddr with
    | none => simp [method]
    | some mv => simp [method]
  refine ⟨?_, rfl, fun _ => rfl⟩
  cases b with
  | nil => simp [dms3fsAddr.Equal, Value.asDMS3FSAddr, Value.asMultiaddr]
  | addr ib =>
    simp only [dms3fsAddr.Equal, Value.asDMS3FSAddr, hmethod]
    simp
  | multiaddr mb =>
    simp only [dms3fsAddr.Equal, Value.asDMS3FSAddr, Value.asMultiaddr, hmethod]
    simp
  | other t => simp [dms3fsAddr.Equal, Value.asDMS3FSAddr, Value.asMultiaddr]

/-- C17, the claim as stated fails: in `/dms3fs/QmFirst/dms3fs/QmUCse` and in the relay
address `/dms3fs/QmRelay/p2p-circuit/dms3fs/QmUCse` an identity segment stands before
the last segment, and `ParseMultiaddr` accepts both, as the last segment is an identity
segment that decodes. -/
theorem C17_counterexample :
    exLib.NewMultiaddr "/dms3fs/QmFirst/dms3fs/QmUCse" = (some exTwoIds, none) ∧
      exLib.Split exTwoIds =
        .ret [some [⟨[⟨421, "dms3fs"⟩], "/dms3fs/QmFirst"⟩],
          some [⟨[⟨421, "dms3fs"⟩], "/dms3fs/QmUCse"⟩]] ∧
      exLib.Protocols [⟨[⟨421, "dms3fs"⟩], "/dms3fs/QmFirst"⟩] =
        .ret [⟨exLib.P_DMS3FS, "dms3fs"⟩] ∧
      ParseMultiaddr exLib (some exTwoIds) = .ret (some ⟨some exTwoIds, "QmUCse"⟩, none) ∧
      ParseString exLib "/dms3fs/QmFirst/dms3fs/QmUCse" =
        .ret (some ⟨some exTwoIds, "QmUCse"⟩, none) ∧
      ParseMultiaddr exLib (some exCircuit) = .ret (some ⟨some exCircuit, "QmUCse"⟩, none) :=
  ⟨by decide, by decide, by decide, by decide, by decide, by decide⟩

/-- C17 as amended: for every multiaddr in which an identity segment stands at a position
before the last segment, `ParseMultiaddr` refuses the address with `ErrInvalidAddr` when
the last segment is not an identity segment; when the last segment is an identity
segment whose text decodes, the address is accepted, the earlier identity segment
notwithstanding. -/
theorem C17_identity_must_be_last {M PeerID E : Type} (L : Lib M PeerID E) (mv : M)
    (parts : List (Option M)) (i : Nat) (seg last : M) (q p : Protocol)
    (qs ps : List Protocol)
    (hS : L.Split mv = .ret parts) (_hi : i + 1 < parts.length)
    (_hseg : parts.get? i = some (some seg)) (_hQ : L.Protocols seg = .ret (q :: qs))
    (_hq : q.Code = L.P_DMS3FS)
    (hlast : parts.getLast? = some (some last)) (hP : L.Protocols last = .ret (p :: ps)) :
    (p.Code ≠ L.P_DMS3FS → ParseMultiaddr L (some mv) = .ret (none, some .ErrInvalidAddr)) ∧
    (∀ str id, p.Code = L.P_DMS3FS → L.String last = .ret str →
      L.IDB58Decode (peerIdStrOf str) = .ret (id, none) →
      ParseMultiaddr L (some mv) = .ret (some ⟨some mv, id⟩, none)) := by
  constructor
  · intro hc
    have hne : parts ≠ [] := by
      intro h
      simp [h] at hlast
    have hl : parts.getLast hne = some last := by
      rw [List.getLast?_eq_getLast _ hne] at hlast
      exact Option.some.inj hlast
    apply ParseMultiaddr_of_body_ret
    rw [body_step L mv parts hne hS, hl]
    simp [method, hP, Go.bind_ret, index, hc]
  · intro str id hc hStr hD
    apply ParseMultiaddr_of_body_ret
    rw [body_decode L mv parts last p ps str hS hlast hP hc hStr, hD]
    rfl

/-- Evaluation of the amended C17 on `/dms3fs/QmUCse/tcp/1234`, whose identity segment
is first and whose last segment is `/tcp/1234`: it is refused. -/
theorem C17_identity_must_be_last_witness :
    ParseMultiaddr exLib (some exIdNotLast) = .ret (none, some .ErrInvalidAddr) :=
  (C17_identity_must_be_last exLib exIdNotLast
    [some [⟨[⟨421, "dms3fs"⟩], "/dms3fs/QmUCse"⟩], some [⟨[⟨6, "tcp"⟩], "/tcp/1234"⟩]]
    0 [⟨[⟨421, "dms3fs"⟩], "/dms3fs/QmUCse"⟩] [⟨[⟨6, "tcp"⟩], "/tcp/1234"⟩]
    ⟨421, "dms3fs"⟩ ⟨6, "tcp"⟩ [] [] (by decide) (by decide) (by decide) (by decide)
    (by decide) (by decide) (by decide)).1 (by decide)

/-- C18: given two laws of the multiaddr library, the full address and its transport
differ. For every address without a circuit-relay value whose multiaddr splits into two
or more segments, if `ma.Join` of the front segments returns a multiaddr `t` that splits
into as many segments as were joined, and address-equal multiaddrs split into equally
many segments, then `Transport` returns `t` and `a.Multiaddr().Equal(t)` is not true. -/
theorem C18_transport_differs {M PeerID E : Type} (L : Lib M PeerID E)
    (a : dms3fsAddr M PeerID) (mv t : M) (v : String) (e : E)
    (parts tparts : List (Option M))
    (h : a.Multiaddr = some mv)
    (hV : L.ValueForProtocol mv L.P_CIRCUIT = .ret (v, some e))
    (hS : L.Split mv = .ret parts) (hlen : 2 ≤ parts.length)
    (hJ : L.Join parts.dropLast = .ret (some t))
    (hSt : L.Split t = .ret tparts) (hcount : tparts.length = parts.dropLast.length)
    (hEq : ∀ x y px py, L.Equal x (some y) = .ret true → L.Split x = .ret px →
      L.Split y = .ret py → px.length = py.length) :
    Transport L (some a) = .ret (some t) ∧ ¬ AddrEqual L a.Multiaddr (some t) := by
  have hne : parts ≠ [] := by
    intro hnil
    simp [hnil] at hlen
  have h1 : ¬ parts.length = 1 := by omega
  constructor
  · rw [Transport_no_circuit L a mv v e parts h hV hS, if_neg h1,
      sliceTo_of_ne_nil parts hne]
    exact hJ
  · rintro ⟨xv, hx, hE⟩
    rw [h] at hx
    obtain rfl := Option.some.inj hx
    have hl := hEq mv t parts tparts hE hS hSt
    rw [hcount, List.length_dropLast] at hl
    omega

/-- Evaluation of C18 on `/ip4/1.2.3.4/tcp/1234/dms3fs/QmUCse` and its transport
`/ip4/1.2.3.4/tcp/1234`. -/
theorem C18_transport_differs_witness :
    Transport exLib (some ⟨some exWithTransport, "QmUCse"⟩) = .ret (some exTransportOnly) ∧
      ¬ AddrEqual exLib
        (⟨some exWithTransport, "QmUCse"⟩ : dms3fsAddr ExAddr String).Multiaddr
        (some exTransportOnly) :=
  C18_transport_differs exLib ⟨some exWithTransport, "QmUCse"⟩ exWithTransport
    exTransportOnly "" "protocol not found in multiaddr"
    [some [⟨[⟨4, "ip4"⟩], "/ip4/1.2.3.4"⟩], some [⟨[⟨6, "tcp"⟩], "/tcp/1234"⟩],
      some [⟨[⟨421, "dms3fs"⟩], "/dms3fs/QmUCse"⟩]]
    [some [⟨[⟨4, "ip4"⟩], "/ip4/1.2.3.4"⟩], some [⟨[⟨6, "tcp"⟩], "/tcp/1234"⟩]]
    rfl (by decide) (by decide) (by decide) (by decide) (by decide) (by decide)
    (fun x y px py hE hx hy => by
      obtain rfl := exLib_equal_true x y hE
      rw [hx, Go.ret.injEq] at hy
      rw [hy])

/-- C19: the outcome of `ParseMultiaddr` depends on the address only through its last
segment. For any two non-nil multiaddrs whose segment lists end in the same last
segment, `ParseMultiaddr` fails on both with the same error or succeeds on both with the
same `ID()`, each returned address keeping its own multiaddr. -/
theorem C19_only_last_segment_matters {M PeerID E : Type} (L : Lib M PeerID E)
    (mv1 mv2 : M) (parts1 parts2 : List (Option M)) (last : Option M)
    (hS1 : L.Split mv1 = .ret parts1) (hS2 : L.Split mv2 = .ret parts2)
    (hl1 : parts1.getLast? = some last) (hl2 : parts2.getLast? = some last) :
    (∃ err, ParseMultiaddr L (some mv1) = .ret (none, some err) ∧
      ParseMultiaddr L (some mv2) = .ret (none, some err)) ∨
    (∃ a1 a2, ParseMultiaddr L (some mv1) = .ret (some a1, none) ∧
      ParseMultiaddr L (some mv2) = .ret (some a2, none) ∧ a1.ID = a2.ID ∧
      a1.Multiaddr = some mv1 ∧ a2.Multiaddr = some mv2) := by
  rcases last_segment_decides L last with ⟨err, h⟩ | ⟨id, h⟩
  · exact Or.inl ⟨err, h mv1 parts1 hS1 hl1, h mv2 parts2 hS2 hl2⟩
  · exact Or.inr ⟨⟨some mv1, id⟩, ⟨some mv2, id⟩, h mv1 parts1 hS1 hl1, h mv2 parts2 hS2 hl2,
      rfl, rfl, rfl⟩

/-- Evaluation of C19 on `/dms3fs/QmUCse` and `/ip4/1.2.3.4/tcp/1234/dms3fs/QmUCse`,
which end in the same segment: both are accepted with the identity `QmUCse`. -/
theorem C19_only_last_segment_matters_witness :
    ParseMultiaddr exLib (some exIdOnly) = .ret (some ⟨some exIdOnly, "QmUCse"⟩, none) ∧
      ParseMultiaddr exLib (some exWithTransport) =
        .ret (some ⟨some exWithTransport, "QmUCse"⟩, none) ∧
      ((∃ err, ParseMultiaddr exLib (some exIdOnly) = .ret (none, some err) ∧
        ParseMultiaddr exLib (some exWithTransport) = .ret (none, some err)) ∨
      (∃ a1 a2, ParseMultiaddr exLib (some exIdOnly) = .ret (some a1, none) ∧
        ParseMultiaddr exLib (some exWithTransport) = .ret (some a2, none) ∧
        a1.ID = a2.ID ∧ a1.Multiaddr = some exIdOnly ∧
        a2.Multiaddr = some exWithTransport)) :=
  ⟨by decide, by decide,
    C19_only_last_segment_matters exLib exIdOnly exWithTransport [some exIdOnly]
      [some [⟨[⟨4, "ip4"⟩], "/ip4/1.2.3.4"⟩], some [⟨[⟨6, "tcp"⟩], "/tcp/1234"⟩],
        some [⟨[⟨421, "dms3fs"⟩], "/dms3fs/QmUCse"⟩]]
      (some exIdOnly) (by decide) (by decide) (by decide) (by decide)⟩

end Dms3fsaddr
